import Mathlib

/-!
Shallow embedding of the vault watch scheduler of `vault.go` (package viper).

Go strings are modelled as `List Char`; Go maps as association lists
(`lookupAssoc` returns the zero value through `Option.getD`, matching Go's
map-read-of-missing-key semantics; `setAssoc` overwrites or inserts).
Machine time is modelled in whole seconds as `Int` (the heap comparison in
the source compares `time.Time.Unix()` values, i.e. whole seconds).
The vault HTTP client is an oracle (`BackendAPI`); fallible calls return
`Except`, and the Go runtime panic from an out-of-range slice index is a
distinguished `GetResult.panic` value.
-/

namespace Viper

abbrev Str := List Char

/-- Pair of key and value (struct `KVEntry` of vault.go). -/
structure KVEntry where
  key : Str
  value : Str
deriving DecidableEq, Repr

/-- Go map read: association list lookup (first binding wins). -/
def lookupAssoc {α : Type} (m : List (Str × α)) (k : Str) : Option α :=
  match m with
  | [] => none
  | kv :: rest => if kv.1 = k then some kv.2 else lookupAssoc rest k

/-- Go map write: overwrite the binding for `k`, or append it. -/
def setAssoc {α : Type} (m : List (Str × α)) (k : Str) (v : α) : List (Str × α) :=
  match m with
  | [] => [(k, v)]
  | kv :: rest => if kv.1 = k then (k, v) :: rest else kv :: setAssoc rest k v

/-- Go `strings.TrimPrefix s p`. -/
def trimPre (s p : Str) : Str :=
  if p.isPrefixOf s then s.drop p.length else s

/-- `isVersionable` of vault.go: `vtype == "kv"`. -/
def isVersionable (vtype : Str) : Bool := vtype = "kv".data

/-- `isLeasable` of vault.go: `vtype == "database"`. -/
def isLeasable (vtype : Str) : Bool := vtype = "database".data

/-- struct `Watchable` of vault.go: a path with its next fetch time
(`nextGet`, in Unix seconds). -/
structure Watchable where
  path : Str
  nextGet : Int
deriving DecidableEq, Repr

instance : Inhabited Watchable := ⟨⟨[], 0⟩⟩

/-- Read slot `i` of the heap's backing slice (out-of-range reads never
happen on the paths exercised by the algorithm). -/
def hGet (h : List Watchable) (i : Nat) : Watchable := (h[i]?).getD default

/-- `nextGet` value at slot `i`; `watchableHeap.Less i j` of vault.go is
`val h i < val h j` (it compares `nextGet.Unix()`). -/
def val (h : List Watchable) (i : Nat) : Int := (hGet h i).nextGet

/-- `watchableHeap.Swap` of vault.go. -/
def hSwap (h : List Watchable) (i j : Nat) : List Watchable :=
  (h.set i (hGet h j)).set j (hGet h i)

/-- `container/heap.up` (sift-up), the loop unrolled on explicit fuel so the
definition is structurally recursive.  `up` below supplies sufficient fuel. -/
def upF : Nat → List Watchable → Nat → List Watchable
  | 0, h, _ => h
  | f + 1, h, j =>
    if j = 0 then h
    else
      let i := (j - 1) / 2
      if val h j < val h i then upF f (hSwap h i j) i else h

/-- `container/heap.up h j` (the parent index `(j-1)/2` strictly decreases,
so fuel `j + 1` always suffices). -/
def up (h : List Watchable) (j : Nat) : List Watchable := upF (j + 1) h j

/-- `container/heap.down` (sift-down) on explicit fuel. -/
def downF : Nat → List Watchable → Nat → Nat → List Watchable
  | 0, h, _, _ => h
  | f + 1, h, i, n =>
    let j1 := 2 * i + 1
    if n ≤ j1 then h
    else
      let j := if j1 + 1 < n ∧ val h (j1 + 1) < val h j1 then j1 + 1 else j1
      if val h j < val h i then downF f (hSwap h i j) j n else h

/-- `container/heap.down h i n` (the index strictly increases below `n`,
so fuel `n - i + 1` always suffices). -/
def down (h : List Watchable) (i n : Nat) : List Watchable := downF (n - i + 1) h i n

/-- `container/heap.Push` specialised to `watchableHeap`: append
(`watchableHeap.Push`), then sift the new last element up. -/
def heapPush (h : List Watchable) (x : Watchable) : List Watchable :=
  up (h ++ [x]) h.length

/-- `container/heap.Pop` specialised to `watchableHeap`: swap the root with
the last slot, sift down over the shortened range, then `watchableHeap.Pop`
removes and returns the last slot. -/
def heapPop (h : List Watchable) : Watchable × List Watchable :=
  let n := h.length - 1
  let h2 := down (hSwap h 0 n) 0 n
  (hGet h2 n, h2.take n)

/-- The vault HTTP client, abstracted: `KvV2Read` yields a data map and the
metadata version; `DatabaseGenerateCredentials` yields username, password
and the lease duration (seconds). -/
structure BackendAPI where
  kvV2Read : Str → Str → Except Str (List (Str × Str) × Int)
  dbCreds : Str → Str → Except Str (Str × Str × Int)

/-- The immutable part of `vaultClient`: the mount table and the watch
configuration (`hasWatchConfig` models `watchConfig != nil`,
`versionPeriod` models `watchConfig.VersionPeriod` in seconds). -/
structure VaultCtx where
  vaults : List (Str × Str)
  hasWatchConfig : Bool
  versionPeriod : Int

/-- `vaultClient.getKV2` of vault.go. -/
def getKV2 (api : BackendAPI) (mountPath key secretName : Str) : Except Str (Str × Int) :=
  match api.kvV2Read mountPath key with
  | .error e => .error e
  | .ok d =>
    match lookupAssoc d.1 secretName with
    | none => .error ("Secret ( ".data ++ secretName ++ " ) does not exist.".data)
    | some secret => .ok (secret, d.2)

/-- `vaultClient.getDBCreds` of vault.go: `username + ":" + password` and the
lease duration. -/
def getDBCreds (api : BackendAPI) (mountPath role : Str) : Except Str (Str × Int) :=
  match api.dbCreds mountPath role with
  | .error e => .error e
  | .ok r => .ok (r.1 ++ ':' :: r.2.1, r.2.2)

/-- `vaultClient.getVaultTypePath` of vault.go: the first mount whose name
is a prefix of the key gives the type and the mount path (mount name with
the trailing slash dropped). -/
def getVaultTypePath (vaults : List (Str × Str)) (key : Str) : Except Str (Str × Str) :=
  match vaults.find? (fun v => v.1.isPrefixOf key) with
  | some v => .ok (v.2, v.1.dropLast)
  | none => .error ("Secrets engine for key ( ".data ++ key ++ " ) does not exist.".data)

/-- Result of `vaultClient.get`: on success the fetched bytes, the revision
hint (version or lease seconds) and the updated `versions`/`leases` maps;
`panic` is the Go runtime panic raised by `keyWithName[1]` when the key
contains no `:`. -/
inductive GetResult where
  | ok (data : Str) (revision : Int) (versions : List (Str × Int)) (leases : List (Str × Int))
  | error (msg : Str)
  | panic
deriving DecidableEq

/-- `vaultClient.get` of vault.go (lines 102-130), with the mutation of
`c.versions` / `c.leases` made explicit in the result. -/
def get (api : BackendAPI) (ctx : VaultCtx) (versions leases : List (Str × Int))
    (key : Str) : GetResult :=
  match getVaultTypePath ctx.vaults key with
  | .error e => .error e
  | .ok tp =>
    let vaultType := tp.1
    let mountPath := tp.2
    let key2 := trimPre key (mountPath ++ ['/'])
    if vaultType = "kv".data then
      let keyWithName := List.splitOn ':' key2
      match keyWithName.get? 1 with
      | none => .panic
      | some secretName =>
        match getKV2 api mountPath (keyWithName.headD []) secretName with
        | .error e => .error e
        | .ok r =>
          let versions2 :=
            if ctx.hasWatchConfig ∧ ctx.versionPeriod ≠ 0 then
              setAssoc versions (mountPath ++ '/' :: key2) r.2
            else versions
          .ok r.1 r.2 versions2 leases
    else if vaultType = "database".data then
      match getDBCreds api mountPath key2 with
      | .error e => .error e
      | .ok r =>
        let leases2 :=
          if ctx.hasWatchConfig then setAssoc leases (mountPath ++ '/' :: key2) r.2
          else leases
        .ok r.1 r.2 versions leases2
    else .error ("Vault type ( ".data ++ vaultType ++ " ) is not supported.".data)

/-- `vaultClient.Get` of vault.go: wraps `get`, dropping the revision but
keeping the map mutations. -/
inductive GetOutcome where
  | ok (data : Str)
  | err (msg : Str)
  | panicked
deriving DecidableEq

/-- `vaultClient.Get` (vault.go lines 132-135), with the state it leaves in
`c.versions` / `c.leases`. -/
def Get (api : BackendAPI) (ctx : VaultCtx) (versions leases : List (Str × Int))
    (key : Str) : GetOutcome × List (Str × Int) × List (Str × Int) :=
  match get api ctx versions leases key with
  | .ok d _ vs ls => (.ok d, vs, ls)
  | .error e => (.err e, versions, leases)
  | .panic => (.panicked, versions, leases)

/-- The mutable state of the watch loop of `Viper.watchVault`: the heap `h`,
the maps of `vaultClient`, the viper `secretstore`, the events sent on
`watchConfig.AlertChannel` (in order), a ghost log of the paths fetched
(in order), and whether the goroutine has returned (`terminated`) or died
from a runtime panic (`panicked`). -/
structure WatchState where
  heapL : List Watchable
  versions : List (Str × Int)
  leases : List (Str × Int)
  secretstore : List (Str × Str)
  events : List KVEntry
  fetchLog : List Str
  terminated : Bool
  panicked : Bool
deriving DecidableEq

/-- vault.go line 195: `c.vaults[strings.Split(event.path, "/")[0]+"/"]`
(a missing mount reads as the zero value `""`). -/
def eventType (vaults : List (Str × Str)) (path : Str) : Str :=
  (lookupAssoc vaults ((List.splitOn '/' path).headD [] ++ ['/'])).getD []

/-- One iteration of the `for` loop of `watchVault` (vault.go lines
189-219).  `now` is the clock value `time.Now()` observed after the fetch
completes (used for the re-enqueue due time); the empty-heap branch (a
1-second sleep plus `continue`) is a state-preserving step. -/
def loopStep (api : BackendAPI) (ctx : VaultCtx) (now : Int) (s : WatchState) : WatchState :=
  if s.terminated then s
  else if s.heapL.isEmpty then s
  else
    let pr := heapPop s.heapL
    let event := pr.1
    let rest := pr.2
    let eventVaultType := eventType ctx.vaults event.path
    if ctx.versionPeriod ≠ 0 ∧ isVersionable eventVaultType = true then
      let oldVersion := (lookupAssoc s.versions event.path).getD 0
      match get api ctx s.versions s.leases event.path with
      | .ok data version versions2 leases2 =>
        if version > oldVersion then
          { s with heapL := heapPush rest ⟨event.path, now + ctx.versionPeriod⟩,
                   versions := versions2, leases := leases2,
                   secretstore := setAssoc s.secretstore event.path data,
                   events := s.events ++ [⟨event.path, data⟩],
                   fetchLog := s.fetchLog ++ [event.path] }
        else
          { s with heapL := heapPush rest ⟨event.path, now + ctx.versionPeriod⟩,
                   versions := versions2, leases := leases2,
                   fetchLog := s.fetchLog ++ [event.path] }
      | .error _ =>
          { s with heapL := rest, terminated := true,
                   fetchLog := s.fetchLog ++ [event.path] }
      | .panic =>
          { s with heapL := rest, terminated := true, panicked := true,
                   fetchLog := s.fetchLog ++ [event.path] }
    else if isLeasable eventVaultType = true then
      match get api ctx s.versions s.leases event.path with
      | .ok data leaseTime versions2 leases2 =>
          { s with heapL := heapPush rest ⟨event.path, now + leaseTime⟩,
                   versions := versions2, leases := leases2,
                   secretstore := setAssoc s.secretstore event.path data,
                   events := s.events ++ [⟨event.path, data⟩],
                   fetchLog := s.fetchLog ++ [event.path] }
      | .error _ =>
          { s with heapL := rest, terminated := true,
                   fetchLog := s.fetchLog ++ [event.path] }
      | .panic =>
          { s with heapL := rest, terminated := true, panicked := true,
                   fetchLog := s.fetchLog ++ [event.path] }
    else
      { s with heapL := rest }

/-- Runs `fuel` iterations of the loop; `k` numbers the iterations so that
the backend oracle and the clock may vary from fetch to fetch. -/
def runLoop (api : Nat → BackendAPI) (clock : Nat → Int) (ctx : VaultCtx) :
    Nat → Nat → WatchState → WatchState
  | _, 0, s => s
  | k, n + 1, s => runLoop api clock ctx (k + 1) n (loopStep (api k) ctx (clock k) s)

/-- The initial heap of `watchVault` (vault.go lines 171-179): one entry per
leased path due at `now + lease`, and, when the version period is nonzero,
one entry per versioned path due at `now + versionPeriod` (Go map iteration
order is abstracted to list order). -/
def initHeap (leases versions : List (Str × Int)) (versionPeriod now : Int) :
    List Watchable :=
  let h := leases.foldl (fun h pl => heapPush h ⟨pl.1, now + pl.2⟩) []
  if versionPeriod ≠ 0 then
    versions.foldl (fun h pv => heapPush h ⟨pv.1, now + versionPeriod⟩) h
  else h

/-- Outcome of `Viper.watchVault`: whether `watchConfig.AlertChannel` was
closed, and the loop state reached. -/
structure WatchOutcome where
  channelClosed : Bool
  final : WatchState
deriving DecidableEq

/-- `Viper.watchVault` (vault.go lines 170-222) run for `fuel` loop
iterations: if the initial heap is empty the alert channel is closed and no
loop body ever runs; otherwise the loop runs (and never closes the
channel). -/
def watchVault (api : Nat → BackendAPI) (clock : Nat → Int) (ctx : VaultCtx)
    (versions leases : List (Str × Int)) (store : List (Str × Str))
    (now : Int) (fuel : Nat) : WatchOutcome :=
  let h0 := initHeap leases versions ctx.versionPeriod now
  if h0.length = 0 then
    ⟨true, ⟨[], versions, leases, store, [], [], true, false⟩⟩
  else
    ⟨false, runLoop api clock ctx 0 fuel ⟨h0, versions, leases, store, [], [], false, false⟩⟩

/-- `vaultClient.ConfigureVault` (vault.go lines 45-60) applied to the
mount listing returned by the client: keep every mount except `sys/...`,
`cubbyhole/` and `identity/`. -/
def configureVault (mounts : List (Str × Str)) : List (Str × Str) :=
  mounts.filter (fun m =>
    ¬("sys/".data.isPrefixOf m.1) ∧ m.1 ≠ "cubbyhole/".data ∧ m.1 ≠ "identity/".data)

/-- Status of `Viper.AddVault`. -/
inductive AVStatus where
  | ok
  | err (msg : Str)
  | panicked
deriving DecidableEq

/-- Observable outcome of `Viper.AddVault`: the returned status, the
secret store and client maps left behind, and whether the watch goroutine
was started. -/
structure AVOutcome where
  status : AVStatus
  secretstore : List (Str × Str)
  versions : List (Str × Int)
  leases : List (Str × Int)
  watchStarted : Bool
deriving DecidableEq

/-- vault.go line 247: `fmt.Errorf("Error while adding vault: %s, path: %s", err, path)`. -/
def addVaultErrMsg (e p : Str) : Str :=
  "Error while adding vault: ".data ++ e ++ ", path: ".data ++ p

/-- The `for _, path := range paths` loop of `AddVault` (vault.go lines
244-250): fetch each path via `Get`, writing `v.secretstore[path]` on
success and returning the error immediately on failure (earlier writes are
left in place); on completion of all paths the watch goroutine is started
iff a watch config was given. -/
def addPaths (api : BackendAPI) (ctx : VaultCtx) :
    List Str → List (Str × Str) → List (Str × Int) → List (Str × Int) → AVOutcome
  | [], st, vs, ls => ⟨.ok, st, vs, ls, ctx.hasWatchConfig⟩
  | p :: rest, st, vs, ls =>
    match Get api ctx vs ls p with
    | (.ok d, vs2, ls2) => addPaths api ctx rest (setAssoc st p d) vs2 ls2
    | (.err e, vs2, ls2) => ⟨.err (addVaultErrMsg e p), st, vs2, ls2, false⟩
    | (.panicked, vs2, ls2) => ⟨.panicked, st, vs2, ls2, false⟩

/-- `Viper.AddVault` (vault.go lines 227-258) after a successful
`ConfigureVault` on `mounts`: the client maps start empty and each
requested path is fetched once. -/
def AddVault (api : BackendAPI) (mounts : List (Str × Str)) (hasWC : Bool)
    (versionPeriod : Int) (store0 : List (Str × Str)) (paths : List Str) : AVOutcome :=
  addPaths api ⟨configureVault mounts, hasWC, versionPeriod⟩ paths store0 [] []

/-! ### Verification of the due-time priority queue (`watchableHeap` +
`container/heap`) -/

@[simp]
theorem hGet_cons_zero (a : Watchable) (t : List Watchable) : hGet (a :: t) 0 = a := by
  simp [hGet]

@[simp]
theorem hGet_cons_succ (a : Watchable) (t : List Watchable) (k : Nat) :
    hGet (a :: t) (k + 1) = hGet t k := by
  simp [hGet]

@[simp]
theorem length_hSwap (h : List Watchable) (i j : Nat) :
    (hSwap h i j).length = h.length := by
  simp [hSwap]

theorem hGet_hSwap_snd (h : List Watchable) (i j : Nat) (hj : j < h.length) :
    hGet (hSwap h i j) j = hGet h i := by
  simp [hSwap, hGet, List.getElem?_set, hj]

theorem hGet_hSwap_fst (h : List Watchable) (i j : Nat) (hi : i < h.length)
    (hij : i ≠ j) : hGet (hSwap h i j) i = hGet h j := by
  simp [hSwap, hGet, List.getElem?_set, hi, Ne.symm hij]

theorem hGet_hSwap_other (h : List Watchable) (i j k : Nat) (hki : k ≠ i)
    (hkj : k ≠ j) : hGet (hSwap h i j) k = hGet h k := by
  simp [hSwap, hGet, List.getElem?_set, Ne.symm hki, Ne.symm hkj]

theorem val_hSwap_snd (h : List Watchable) (i j : Nat) (hj : j < h.length) :
    val (hSwap h i j) j = val h i := by
  simp [val, hGet_hSwap_snd h i j hj]

theorem val_hSwap_fst (h : List Watchable) (i j : Nat) (hi : i < h.length)
    (hij : i ≠ j) : val (hSwap h i j) i = val h j := by
  simp [val, hGet_hSwap_fst h i j hi hij]

theorem val_hSwap_other (h : List Watchable) (i j k : Nat) (hki : k ≠ i)
    (hkj : k ≠ j) : val (hSwap h i j) k = val h k := by
  simp [val, hGet_hSwap_other h i j k hki hkj]

theorem cons_set_perm (x : List Watchable) (k : Nat) (a : Watchable)
    (hk : k < x.length) : List.Perm (hGet x k :: x.set k a) (a :: x) := by
  induction x generalizing k with
  | nil => simp at hk
  | cons b y ih =>
    cases k with
    | zero => simpa using List.Perm.swap a b y
    | succ k =>
      have hky : k < y.length := by simpa using hk
      have e1 : hGet (b :: y) (k + 1) :: (b :: y).set (k + 1) a
          = hGet y k :: b :: y.set k a := by simp
      rw [e1]
      exact ((List.Perm.swap b (hGet y k) _).trans ((ih k hky).cons b)).trans
        (List.Perm.swap a b y)

theorem hSwap_perm (h : List Watchable) (i j : Nat) (hi : i < h.length)
    (hj : j < h.length) : List.Perm (hSwap h i j) h := by
  induction h generalizing i j with
  | nil => simp at hi
  | cons a t ih =>
    cases i with
    | zero =>
      cases j with
      | zero => simp [hSwap]
      | succ j =>
        have hjt : j < t.length := by simpa using hj
        have : hSwap (a :: t) 0 (j + 1) = hGet t j :: t.set j a := by
          simp [hSwap]
        rw [this]
        exact cons_set_perm t j a hjt
    | succ i =>
      cases j with
      | zero =>
        have hit : i < t.length := by simpa using hi
        have : hSwap (a :: t) (i + 1) 0 = hGet t i :: t.set i a := by
          simp [hSwap]
        rw [this]
        exact cons_set_perm t i a hit
      | succ j =>
        have : hSwap (a :: t) (i + 1) (j + 1) = a :: hSwap t i j := by
          simp [hSwap]
        rw [this]
        exact (ih i j (by simpa using hi) (by simpa using hj)).cons a

/-- Min-heap property on the first `n` slots: every non-root slot is at
least its parent (w.r.t. `watchableHeap.Less`). -/
def IsHeapU (h : List Watchable) (n : Nat) : Prop :=
  ∀ j, 0 < j → j < n → val h ((j - 1) / 2) ≤ val h j

/-- Min-heap property of the whole backing slice. -/
def IsMinHeap (h : List Watchable) : Prop := IsHeapU h h.length

/-- Precondition of `container/heap.up h j`: every parent-child pair holds
except possibly the one ending at `j`, and `j`'s parent already bounds
`j`'s children. -/
def UpInv (h : List Watchable) (n j : Nat) : Prop :=
  (∀ k, 0 < k → k < n → k ≠ j → val h ((k - 1) / 2) ≤ val h k)
  ∧ (0 < j → ∀ c, c < n → (c - 1) / 2 = j → val h ((j - 1) / 2) ≤ val h c)

/-- Precondition of `container/heap.down h i n`: every parent-child pair
holds except possibly the ones starting at `i`, and `i`'s parent already
bounds `i`'s children. -/
def DownInv (h : List Watchable) (n i : Nat) : Prop :=
  (∀ k, 0 < k → k < n → (k - 1) / 2 ≠ i → val h ((k - 1) / 2) ≤ val h k)
  ∧ (0 < i → ∀ c, c < n → (c - 1) / 2 = i → val h ((i - 1) / 2) ≤ val h c)

theorem upInv_swap (h : List Watchable) (n j : Nat) (hn : n = h.length)
    (hj0 : 0 < j) (hjn : j < n) (hlt : val h j < val h ((j - 1) / 2))
    (hinv : UpInv h n j) : UpInv (hSwap h ((j - 1) / 2) j) n ((j - 1) / 2) := by
  obtain ⟨h1, h2⟩ := hinv
  set i := (j - 1) / 2 with hidef
  have hij : i < j := by omega
  have hjlen : j < h.length := by omega
  have hilen : i < h.length := by omega
  constructor
  · intro k hk0 hkn hki
    by_cases hkj : k = j
    · subst hkj
      rw [← hidef, val_hSwap_fst h i k hilen (by omega), val_hSwap_snd h i k hjlen]
      exact le_of_lt hlt
    · by_cases hpkj : (k - 1) / 2 = j
      · have hkgt : j < k := by omega
        rw [hpkj, val_hSwap_snd h i j hjlen,
          val_hSwap_other h i j k (by omega) (by omega)]
        exact h2 hj0 k hkn hpkj
      · by_cases hpki : (k - 1) / 2 = i
        · rw [hpki, val_hSwap_fst h i j hilen (by omega),
            val_hSwap_other h i j k hki hkj]
          have := h1 k hk0 hkn hkj
          rw [hpki] at this
          exact le_trans (le_of_lt hlt) this
        · rw [val_hSwap_other h i j ((k - 1) / 2) hpki hpkj,
            val_hSwap_other h i j k hki hkj]
          exact h1 k hk0 hkn hkj
  · intro hi0 c hcn hpc
    have hpii : (i - 1) / 2 ≠ i := by omega
    have hpij : (i - 1) / 2 ≠ j := by omega
    have hcgt : i < c := by omega
    rw [val_hSwap_other h i j ((i - 1) / 2) hpii hpij]
    by_cases hcj : c = j
    · subst hcj
      rw [val_hSwap_snd h i c hjlen]
      exact h1 i hi0 (by omega) (by omega)
    · have hci : c ≠ i := by omega
      rw [val_hSwap_other h i j c hci hcj]
      have e1 := h1 i hi0 (by omega) (by omega)
      have e2 := h1 c (by omega) hcn hcj
      rw [hpc] at e2
      exact le_trans e1 e2

theorem downInv_swap (h : List Watchable) (n i j : Nat) (hnlen : n ≤ h.length)
    (hjn : j < n) (hj1 : 2 * i + 1 ≤ j) (hpj : (j - 1) / 2 = i)
    (hminchild : ∀ c, 0 < c → c < n → (c - 1) / 2 = i → val h j ≤ val h c)
    (hlt : val h j < val h i) (hinv : DownInv h n i) :
    DownInv (hSwap h i j) n j := by
  obtain ⟨h1, h2⟩ := hinv
  have hij : i < j := by omega
  have hjlen : j < h.length := by omega
  have hilen : i < h.length := by omega
  constructor
  · intro k hk0 hkn hpkj
    by_cases hkj : k = j
    · subst hkj
      rw [hpj, val_hSwap_fst h i k hilen (by omega), val_hSwap_snd h i k hjlen]
      exact le_of_lt hlt
    · by_cases hki : k = i
      · subst hki
        have hi0 : 0 < k := hk0
        rw [val_hSwap_other h k j ((k - 1) / 2) (by omega) (by omega),
          val_hSwap_fst h k j hilen (by omega)]
        exact h2 hi0 j hjn hpj
      · by_cases hpki : (k - 1) / 2 = i
        · rw [hpki, val_hSwap_fst h i j hilen (by omega),
            val_hSwap_other h i j k hki hkj]
          exact hminchild k hk0 hkn hpki
        · rw [val_hSwap_other h i j ((k - 1) / 2) hpki hpkj,
            val_hSwap_other h i j k hki hkj]
          exact h1 k hk0 hkn hpki
  · intro hj0 c hcn hpc
    have hcj : c ≠ j := by omega
    have hci : c ≠ i := by omega
    rw [hpj, val_hSwap_fst h i j hilen (by omega), val_hSwap_other h i j c hci hcj]
    have e := h1 c (by omega) hcn (by omega)
    rw [hpc] at e
    exact e

theorem upF_good : ∀ (f : Nat) (h : List Watchable) (j n : Nat), j < f → j < n →
    n = h.length → UpInv h n j →
    IsHeapU (upF f h j) n ∧ List.Perm (upF f h j) h := by
  intro f
  induction f with
  | zero => intro h j n hf; omega
  | succ f ih =>
    intro h j n hf hjn hn hinv
    by_cases hj0 : j = 0
    · subst hj0
      simp only [upF, if_pos rfl]
      exact ⟨fun k hk0 hkn => hinv.1 k hk0 hkn (by omega), List.Perm.refl h⟩
    · simp only [upF, if_neg hj0]
      by_cases hlt : val h j < val h ((j - 1) / 2)
      · rw [if_pos hlt]
        have hinv' := upInv_swap h n j hn (by omega) hjn hlt hinv
        have hlen : n = (hSwap h ((j - 1) / 2) j).length := by
          rw [length_hSwap]; exact hn
        have hres := ih (hSwap h ((j - 1) / 2) j) ((j - 1) / 2) n (by omega) (by omega)
          hlen hinv'
        exact ⟨hres.1, hres.2.trans (hSwap_perm h ((j - 1) / 2) j (by omega) (by omega))⟩
      · rw [if_neg hlt]
        refine ⟨?_, List.Perm.refl h⟩
        intro k hk0 hkn
        by_cases hkj : k = j
        · subst hkj; exact le_of_not_lt hlt
        · exact hinv.1 k hk0 hkn hkj

theorem downF_good : ∀ (f : Nat) (h : List Watchable) (i n : Nat), n - i < f →
    n ≤ h.length → DownInv h n i →
    IsHeapU (downF f h i n) n ∧ List.Perm (downF f h i n) h
    ∧ ∀ m, n ≤ m → hGet (downF f h i n) m = hGet h m := by
  intro f
  induction f with
  | zero => intro h i n hf; omega
  | succ f ih =>
    intro h i n hf hnlen hinv
    by_cases hbase : n ≤ 2 * i + 1
    · simp only [downF, if_pos hbase]
      refine ⟨?_, List.Perm.refl h, fun m _ => trivial⟩
      intro k hk0 hkn
      by_cases hpki : (k - 1) / 2 = i
      · omega
      · exact hinv.1 k hk0 hkn hpki
    · simp only [downF, if_neg hbase]
      set j := if 2 * i + 1 + 1 < n ∧ val h (2 * i + 1 + 1) < val h (2 * i + 1)
        then 2 * i + 1 + 1 else 2 * i + 1 with hjdef
      have hj1 : 2 * i + 1 ≤ j := by
        rw [hjdef]; split <;> omega
      have hjn : j < n := by
        rw [hjdef]; split <;> omega
      have hpj : (j - 1) / 2 = i := by
        rw [hjdef]; split <;> omega
      have hminchild : ∀ c, 0 < c → c < n → (c - 1) / 2 = i → val h j ≤ val h c := by
        intro c hc0 hcn hpc
        have hcrange : c = 2 * i + 1 ∨ c = 2 * i + 1 + 1 := by omega
        rw [hjdef]
        by_cases hsel : 2 * i + 1 + 1 < n ∧ val h (2 * i + 1 + 1) < val h (2 * i + 1)
        · rw [if_pos hsel]
          rcases hcrange with hc | hc
          · rw [hc]; exact le_of_lt hsel.2
          · rw [hc]
        · rw [if_neg hsel]
          rcases hcrange with hc | hc
          · rw [hc]
          · rw [hc]
            have hnv : ¬ val h (2 * i + 1 + 1) < val h (2 * i + 1) := by
              intro hv
              exact hsel ⟨by omega, hv⟩
            omega
      by_cases hlt : val h j < val h i
      · rw [if_pos hlt]
        have hinv' := downInv_swap h n i j hnlen hjn hj1 hpj hminchild hlt hinv
        have hres := ih (hSwap h i j) j n (by omega)
          (by rw [length_hSwap]; exact hnlen) hinv'
        refine ⟨hres.1, hres.2.1.trans (hSwap_perm h i j (by omega) (by omega)), ?_⟩
        intro m hm
        rw [hres.2.2 m hm, hGet_hSwap_other h i j m (by omega) (by omega)]
      · rw [if_neg hlt]
        refine ⟨?_, List.Perm.refl h, fun m _ => rfl⟩
        intro k hk0 hkn
        by_cases hpki : (k - 1) / 2 = i
        · have e1 := hminchild k hk0 hkn hpki
          have e2 := le_of_not_lt hlt
          rw [hpki]
          omega
        · exact hinv.1 k hk0 hkn hpki

theorem val_append_lt (h l : List Watchable) (m : Nat) (hm : m < h.length) :
    val (h ++ l) m = val h m := by
  simp [val, hGet, List.getElem?_append_left hm]

theorem val_take (l : List Watchable) (n k : Nat) (hk : k < n) :
    val (l.take n) k = val l k := by
  simp [val, hGet, List.getElem?_take_of_lt hk]

theorem hGet_eq_getElem (l : List Watchable) (m : Nat) (hm : m < l.length) :
    hGet l m = l[m] := by
  simp [hGet, List.getElem?_eq_getElem hm]

theorem take_append_last (l : List Watchable) (hl : 0 < l.length) :
    l.take (l.length - 1) ++ [hGet l (l.length - 1)] = l := by
  have hlt : l.length - 1 < l.length := by omega
  rw [hGet_eq_getElem l (l.length - 1) hlt]
  conv_rhs => rw [← List.take_append_drop (l.length - 1) l]
  congr 1
  rw [List.drop_eq_getElem_cons hlt, List.drop_eq_nil_of_le (by omega)]

theorem isHeapU_root_le (h : List Watchable) (n : Nat) (hh : IsHeapU h n) :
    ∀ m, m < n → val h 0 ≤ val h m := by
  intro m
  induction m using Nat.strong_induction_on with
  | _ m ih =>
    intro hm
    rcases Nat.eq_zero_or_pos m with hm0 | hm0
    · subst hm0; exact le_refl _
    · exact le_trans (ih ((m - 1) / 2) (by omega) (by omega)) (hh m hm0 hm)

theorem heapPush_spec (h : List Watchable) (x : Watchable) (hmh : IsMinHeap h) :
    IsMinHeap (heapPush h x) ∧ List.Perm (heapPush h x) (x :: h) := by
  have hup : UpInv (h ++ [x]) (h.length + 1) h.length := by
    constructor
    · intro k hk0 hkn hkj
      have hkh : k < h.length := by omega
      have hpk : (k - 1) / 2 < h.length := by omega
      rw [val_append_lt h [x] k hkh, val_append_lt h [x] ((k - 1) / 2) hpk]
      exact hmh k hk0 hkh
    · intro hj0 c hcn hpc
      omega
  have hres := upF_good (h.length + 1) (h ++ [x]) h.length (h.length + 1)
    (by omega) (by omega) (by simp) hup
  have heq : heapPush h x = upF (h.length + 1) (h ++ [x]) h.length := rfl
  constructor
  · rw [IsMinHeap, heq]
    have hlen : (upF (h.length + 1) (h ++ [x]) h.length).length = h.length + 1 := by
      rw [hres.2.length_eq]; simp
    rw [hlen]
    exact hres.1
  · rw [heq]
    exact hres.2.trans (List.perm_append_singleton x h)

theorem heapPop_spec (h : List Watchable) (hmh : IsMinHeap h) (hne : h ≠ []) :
    (heapPop h).1 = hGet h 0 ∧ IsMinHeap (heapPop h).2
    ∧ List.Perm ((heapPop h).1 :: (heapPop h).2) h := by
  have hlen0 : 0 < h.length := List.length_pos.mpr hne
  have hnlt : h.length - 1 < h.length := by omega
  have hdi : DownInv (hSwap h 0 (h.length - 1)) (h.length - 1) 0 := by
    constructor
    · intro k hk0 hkn hpk
      rw [val_hSwap_other h 0 (h.length - 1) ((k - 1) / 2) hpk (by omega),
        val_hSwap_other h 0 (h.length - 1) k (by omega) (by omega)]
      exact hmh k hk0 (by omega)
    · intro h0
      exact absurd h0 (lt_irrefl 0)
  obtain ⟨hheap, hperm, hframe⟩ := downF_good (h.length - 1 - 0 + 1)
    (hSwap h 0 (h.length - 1)) 0 (h.length - 1) (by omega)
    (by rw [length_hSwap]; omega) hdi
  have heq : heapPop h = (hGet (downF (h.length - 1 - 0 + 1) (hSwap h 0 (h.length - 1)) 0
      (h.length - 1)) (h.length - 1),
      (downF (h.length - 1 - 0 + 1) (hSwap h 0 (h.length - 1)) 0 (h.length - 1)).take
        (h.length - 1)) := rfl
  have hlen2 : (downF (h.length - 1 - 0 + 1) (hSwap h 0 (h.length - 1)) 0
      (h.length - 1)).length = h.length := by
    rw [hperm.length_eq, length_hSwap]
  refine ⟨?_, ?_, ?_⟩
  · rw [heq]
    show hGet (downF (h.length - 1 - 0 + 1) (hSwap h 0 (h.length - 1)) 0
      (h.length - 1)) (h.length - 1) = hGet h 0
    rw [hframe (h.length - 1) (le_refl _), hGet_hSwap_snd h 0 (h.length - 1) hnlt]
  · rw [heq]
    show IsMinHeap ((downF (h.length - 1 - 0 + 1) (hSwap h 0 (h.length - 1)) 0
      (h.length - 1)).take (h.length - 1))
    have hltake : ((downF (h.length - 1 - 0 + 1) (hSwap h 0 (h.length - 1)) 0
        (h.length - 1)).take (h.length - 1)).length = h.length - 1 := by
      rw [List.length_take, hlen2]
      omega
    rw [IsMinHeap, hltake]
    intro j hj0 hjn
    rw [val_take _ _ j hjn, val_take _ _ ((j - 1) / 2) (by omega)]
    exact hheap j hj0 hjn
  · rw [heq]
    show List.Perm (hGet (downF (h.length - 1 - 0 + 1) (hSwap h 0 (h.length - 1)) 0
      (h.length - 1)) (h.length - 1) :: (downF (h.length - 1 - 0 + 1)
      (hSwap h 0 (h.length - 1)) 0 (h.length - 1)).take (h.length - 1)) h
    have hsplit := take_append_last (downF (h.length - 1 - 0 + 1)
      (hSwap h 0 (h.length - 1)) 0 (h.length - 1)) (by omega)
    rw [hlen2] at hsplit
    have hp1 := List.perm_append_singleton
      (hGet (downF (h.length - 1 - 0 + 1) (hSwap h 0 (h.length - 1)) 0
        (h.length - 1)) (h.length - 1))
      ((downF (h.length - 1 - 0 + 1) (hSwap h 0 (h.length - 1)) 0
        (h.length - 1)).take (h.length - 1))
    have hp2 : List.Perm (downF (h.length - 1 - 0 + 1) (hSwap h 0 (h.length - 1)) 0
        (h.length - 1)) h :=
      hperm.trans (hSwap_perm h 0 (h.length - 1) hlen0 hnlt)
    rw [hsplit] at hp1
    exact hp1.symm.trans hp2

/-- The heap states the watch loop can actually hold: built from the empty
slice by `heap.Push` and `heap.Pop` alone (the loop never mutates entries
in place). -/
inductive ReachableHeap : List Watchable → Prop where
  | empty : ReachableHeap []
  | push (h : List Watchable) (x : Watchable) :
      ReachableHeap h → ReachableHeap (heapPush h x)
  | pop (h : List Watchable) : ReachableHeap h → ReachableHeap (heapPop h).2

theorem reachable_isMinHeap (h : List Watchable) (hr : ReachableHeap h) :
    IsMinHeap h := by
  induction hr with
  | empty =>
    intro j hj0 hjn
    simp at hjn
  | push h x hr ih => exact (heapPush_spec h x ih).1
  | pop h hr ih =>
    by_cases hne : h = []
    · subst hne
      have heq : heapPop ([] : List Watchable) = (default, []) := rfl
      rw [heq]
      intro j hj0 hjn
      simp at hjn
    · exact (heapPop_spec h ih hne).2.1

/-! ### Claim theorems -/

/-- C4: on every reachable state of the due-time priority queue, `popMin`
(`heap.Pop`) removes and returns an entry whose `nextGet` is smallest among
all queued entries (the remainder plus the returned entry is a permutation
of the queue); the tie-break is deterministic because `heapPop` is a
function; consequently, if entry `A` is queued with a strictly earlier due
time than `B`'s, the popped entry is never `B`, so `A` is fetched before
`B`. -/
theorem popMin_spec (h : List Watchable) (hr : ReachableHeap h) (hne : h ≠ []) :
    (heapPop h).1 ∈ h
    ∧ (∀ w, w ∈ h → (heapPop h).1.nextGet ≤ w.nextGet)
    ∧ List.Perm ((heapPop h).1 :: (heapPop h).2) h
    ∧ ∀ A B, A ∈ h → A.nextGet < B.nextGet → (heapPop h).1 ≠ B := by
  have hmh := reachable_isMinHeap h hr
  obtain ⟨h1, _h2, h3⟩ := heapPop_spec h hmh hne
  have hlen0 : 0 < h.length := List.length_pos.mpr hne
  have hmem : (heapPop h).1 ∈ h := by
    rw [h1, hGet_eq_getElem h 0 hlen0]
    exact List.getElem_mem hlen0
  have hmin : ∀ w, w ∈ h → (heapPop h).1.nextGet ≤ w.nextGet := by
    intro w hw
    obtain ⟨m, hm⟩ := List.mem_iff_getElem?.mp hw
    have hmlt : m < h.length := by
      by_contra hge
      rw [List.getElem?_eq_none (by omega)] at hm
      cases hm
    have hval : val h m = w.nextGet := by simp [val, hGet, hm]
    have hroot := isHeapU_root_le h h.length hmh m hmlt
    rw [h1]
    show val h 0 ≤ w.nextGet
    rw [← hval]
    exact hroot
  refine ⟨hmem, hmin, h3, ?_⟩
  intro A B hA hAB heqB
  have hle := hmin A hA
  rw [heqB] at hle
  omega

/-- Witness for C4 at a concrete two-element queue. -/
theorem popMin_spec_witness :
    (heapPop [⟨"a".data, 3⟩, ⟨"b".data, 5⟩]).1 ∈ [⟨"a".data, 3⟩, ⟨"b".data, 5⟩]
    ∧ (∀ w, w ∈ [Watchable.mk "a".data 3, ⟨"b".data, 5⟩] →
        (heapPop [⟨"a".data, 3⟩, ⟨"b".data, 5⟩]).1.nextGet ≤ w.nextGet)
    ∧ List.Perm ((heapPop [⟨"a".data, 3⟩, ⟨"b".data, 5⟩]).1 ::
        (heapPop [⟨"a".data, 3⟩, ⟨"b".data, 5⟩]).2) [⟨"a".data, 3⟩, ⟨"b".data, 5⟩]
    ∧ ∀ A B, A ∈ [Watchable.mk "a".data 3, ⟨"b".data, 5⟩] →
        A.nextGet < B.nextGet → (heapPop [⟨"a".data, 3⟩, ⟨"b".data, 5⟩]).1 ≠ B := by
  have hr : ReachableHeap [⟨"a".data, 3⟩, ⟨"b".data, 5⟩] := by
    have : [Watchable.mk "a".data 3, ⟨"b".data, 5⟩]
        = heapPush (heapPush [] ⟨"b".data, 5⟩) ⟨"a".data, 3⟩ := by decide
    rw [this]
    exact ReachableHeap.push _ _ (ReachableHeap.push _ _ ReachableHeap.empty)
  exact popMin_spec [⟨"a".data, 3⟩, ⟨"b".data, 5⟩] hr (by decide)

theorem runLoop_terminated (api : Nat → BackendAPI) (clock : Nat → Int) (ctx : VaultCtx) :
    ∀ (n k : Nat) (s : WatchState), s.terminated = true →
      runLoop api clock ctx k n s = s := by
  intro n
  induction n with
  | zero => intro k s _; rfl
  | succ n ih =>
    intro k s hterm
    have hstep : loopStep (api k) ctx (clock k) s = s := by
      simp [loopStep, hterm]
    rw [runLoop, hstep]
    exact ih (k + 1) s hterm

theorem isLeasable_not_versionable (t : Str) (h : isLeasable t = true) :
    isVersionable t = false := by
  have ht : t = "database".data := by simpa [isLeasable] using h
  subst ht
  decide

/-- C1: for a watched versioned (kv) path, a successful scheduled fetch
writes the cache and emits exactly one event iff the fetched version
strictly exceeds the last-recorded version; on an equal or lower version
neither the cache nor the event stream changes. -/
theorem versioned_write_emit_iff (api : BackendAPI) (ctx : VaultCtx) (now : Int)
    (s : WatchState) (ev : Watchable) (rest : List Watchable) (data : Str)
    (version : Int) (vs2 ls2 : List (Str × Int))
    (hterm : s.terminated = false) (hne : s.heapL ≠ [])
    (hpop : heapPop s.heapL = (ev, rest))
    (hvp : ctx.versionPeriod ≠ 0)
    (hver : isVersionable (eventType ctx.vaults ev.path) = true)
    (hget : get api ctx s.versions s.leases ev.path = .ok data version vs2 ls2) :
    ((lookupAssoc s.versions ev.path).getD 0 < version →
      (loopStep api ctx now s).secretstore = setAssoc s.secretstore ev.path data
      ∧ (loopStep api ctx now s).events = s.events ++ [⟨ev.path, data⟩])
    ∧ (version ≤ (lookupAssoc s.versions ev.path).getD 0 →
      (loopStep api ctx now s).secretstore = s.secretstore
      ∧ (loopStep api ctx now s).events = s.events) := by
  have hempty : s.heapL.isEmpty = false := by
    cases hl : s.heapL with
    | nil => exact absurd hl hne
    | cons a t => rfl
  constructor
  · intro hgt
    constructor <;>
      simp [loopStep, hterm, hempty, hpop, hvp, hver, hget, hgt]
  · intro hle
    have hngt : ¬((lookupAssoc s.versions ev.path).getD 0 < version) := not_lt.mpr hle
    constructor <;>
      simp [loopStep, hterm, hempty, hpop, hvp, hver, hget, hngt]

/-- Witness for C1 (fetched version 7 against recorded version 5, and the
instantiated conclusion). -/
theorem versioned_write_emit_iff_witness :
    ((lookupAssoc [(("kv1/a:s".data : Str), (5 : Int))] "kv1/a:s".data).getD 0 < 7 →
      (loopStep (BackendAPI.mk (fun _ _ => .ok ([("s".data, "x".data)], 7))
          (fun _ _ => .error []))
        (VaultCtx.mk [("kv1/".data, "kv".data)] true 10) 100
        (WatchState.mk [⟨"kv1/a:s".data, 0⟩] [("kv1/a:s".data, 5)] [] [] [] [] false
          false)).secretstore
        = setAssoc [] "kv1/a:s".data "x".data
      ∧ (loopStep (BackendAPI.mk (fun _ _ => .ok ([("s".data, "x".data)], 7))
          (fun _ _ => .error []))
        (VaultCtx.mk [("kv1/".data, "kv".data)] true 10) 100
        (WatchState.mk [⟨"kv1/a:s".data, 0⟩] [("kv1/a:s".data, 5)] [] [] [] [] false
          false)).events
        = [] ++ [⟨"kv1/a:s".data, "x".data⟩])
    ∧ ((7 : Int) ≤ (lookupAssoc [(("kv1/a:s".data : Str), (5 : Int))] "kv1/a:s".data).getD 0 →
      (loopStep (BackendAPI.mk (fun _ _ => .ok ([("s".data, "x".data)], 7))
          (fun _ _ => .error []))
        (VaultCtx.mk [("kv1/".data, "kv".data)] true 10) 100
        (WatchState.mk [⟨"kv1/a:s".data, 0⟩] [("kv1/a:s".data, 5)] [] [] [] [] false
          false)).secretstore = []
      ∧ (loopStep (BackendAPI.mk (fun _ _ => .ok ([("s".data, "x".data)], 7))
          (fun _ _ => .error []))
        (VaultCtx.mk [("kv1/".data, "kv".data)] true 10) 100
        (WatchState.mk [⟨"kv1/a:s".data, 0⟩] [("kv1/a:s".data, 5)] [] [] [] [] false
          false)).events = []) :=
  versioned_write_emit_iff
    (BackendAPI.mk (fun _ _ => .ok ([("s".data, "x".data)], 7)) (fun _ _ => .error []))
    (VaultCtx.mk [("kv1/".data, "kv".data)] true 10) 100
    (WatchState.mk [⟨"kv1/a:s".data, 0⟩] [("kv1/a:s".data, 5)] [] [] [] [] false false)
    ⟨"kv1/a:s".data, 0⟩ [] "x".data 7 [("kv1/a:s".data, 7)] []
    rfl (by decide) (by decide) (by decide) (by decide) (by decide)

/-- C2: whenever an iteration of the watch loop terminates it (which
happens exactly on a failed fetch: `return` on the error paths), the popped
(failed) path is not re-inserted — the heap is exactly the remainder of the
pop — no event is emitted by that iteration, the fetch log grows only by
the failed path, and any further running of the loop, under any backend
and clock, leaves the state untouched: no still-enqueued path is ever
serviced afterward. -/
theorem fetch_error_halts_loop (api : BackendAPI) (ctx : VaultCtx) (now : Int)
    (s : WatchState) (hterm : s.terminated = false)
    (hterm2 : (loopStep api ctx now s).terminated = true) :
    (loopStep api ctx now s).heapL = (heapPop s.heapL).2
    ∧ (loopStep api ctx now s).events = s.events
    ∧ (loopStep api ctx now s).fetchLog = s.fetchLog ++ [(heapPop s.heapL).1.path]
    ∧ ∀ (api2 : Nat → BackendAPI) (clock2 : Nat → Int) (ctx2 : VaultCtx) (k n : Nat),
        runLoop api2 clock2 ctx2 k n (loopStep api ctx now s) = loopStep api ctx now s := by
  have hfix : ∀ (api2 : Nat → BackendAPI) (clock2 : Nat → Int) (ctx2 : VaultCtx)
      (k n : Nat), runLoop api2 clock2 ctx2 k n (loopStep api ctx now s)
        = loopStep api ctx now s := by
    intro api2 clock2 ctx2 k n
    exact runLoop_terminated api2 clock2 ctx2 n k _ hterm2
  have hempty : s.heapL.isEmpty = false := by
    by_cases hq : s.heapL.isEmpty = true
    · exfalso
      simp [loopStep, hterm, hq] at hterm2
    · simpa using hq
  by_cases hcond : ctx.versionPeriod ≠ 0
      ∧ isVersionable (eventType ctx.vaults (heapPop s.heapL).1.path) = true
  · cases hg : get api ctx s.versions s.leases (heapPop s.heapL).1.path with
    | ok d v vs2 ls2 =>
      exfalso
      by_cases hgt : (lookupAssoc s.versions (heapPop s.heapL).1.path).getD 0 < v
      · simp [loopStep, hterm, hempty, hcond, hg, hgt] at hterm2
      · simp [loopStep, hterm, hempty, hcond, hg, hgt] at hterm2
    | error e =>
      exact ⟨by simp [loopStep, hterm, hempty, hcond, hg],
        by simp [loopStep, hterm, hempty, hcond, hg],
        by simp [loopStep, hterm, hempty, hcond, hg], hfix⟩
    | panic =>
      exact ⟨by simp [loopStep, hterm, hempty, hcond, hg],
        by simp [loopStep, hterm, hempty, hcond, hg],
        by simp [loopStep, hterm, hempty, hcond, hg], hfix⟩
  · by_cases hleas : isLeasable (eventType ctx.vaults (heapPop s.heapL).1.path) = true
    · cases hg : get api ctx s.versions s.leases (heapPop s.heapL).1.path with
      | ok d v vs2 ls2 =>
        exfalso
        simp [loopStep, hterm, hempty, hcond, hleas, hg] at hterm2
      | error e =>
        exact ⟨by simp [loopStep, hterm, hempty, hcond, hleas, hg],
          by simp [loopStep, hterm, hempty, hcond, hleas, hg],
          by simp [loopStep, hterm, hempty, hcond, hleas, hg], hfix⟩
      | panic =>
        exact ⟨by simp [loopStep, hterm, hempty, hcond, hleas, hg],
          by simp [loopStep, hterm, hempty, hcond, hleas, hg],
          by simp [loopStep, hterm, hempty, hcond, hleas, hg], hfix⟩
    · exfalso
      simp [loopStep, hterm, hempty, hcond, hleas] at hterm2

/-- Witness for C2: a kv path whose backend call fails. -/
theorem fetch_error_halts_loop_witness :
    (loopStep (BackendAPI.mk (fun _ _ => .error "boom".data) (fun _ _ => .error []))
        (VaultCtx.mk [("kv1/".data, "kv".data)] true 10) 100
        (WatchState.mk [⟨"kv1/a:s".data, 0⟩] [("kv1/a:s".data, 5)] [] [] [] [] false
          false)).heapL
      = (heapPop [⟨"kv1/a:s".data, 0⟩]).2
    ∧ (loopStep (BackendAPI.mk (fun _ _ => .error "boom".data) (fun _ _ => .error []))
        (VaultCtx.mk [("kv1/".data, "kv".data)] true 10) 100
        (WatchState.mk [⟨"kv1/a:s".data, 0⟩] [("kv1/a:s".data, 5)] [] [] [] [] false
          false)).events = []
    ∧ (loopStep (BackendAPI.mk (fun _ _ => .error "boom".data) (fun _ _ => .error []))
        (VaultCtx.mk [("kv1/".data, "kv".data)] true 10) 100
        (WatchState.mk [⟨"kv1/a:s".data, 0⟩] [("kv1/a:s".data, 5)] [] [] [] [] false
          false)).fetchLog = [] ++ [(heapPop [⟨"kv1/a:s".data, 0⟩]).1.path]
    ∧ ∀ (api2 : Nat → BackendAPI) (clock2 : Nat → Int) (ctx2 : VaultCtx) (k n : Nat),
        runLoop api2 clock2 ctx2 k n
          (loopStep (BackendAPI.mk (fun _ _ => .error "boom".data) (fun _ _ => .error []))
            (VaultCtx.mk [("kv1/".data, "kv".data)] true 10) 100
            (WatchState.mk [⟨"kv1/a:s".data, 0⟩] [("kv1/a:s".data, 5)] [] [] [] [] false
              false))
          = loopStep (BackendAPI.mk (fun _ _ => .error "boom".data) (fun _ _ => .error []))
            (VaultCtx.mk [("kv1/".data, "kv".data)] true 10) 100
            (WatchState.mk [⟨"kv1/a:s".data, 0⟩] [("kv1/a:s".data, 5)] [] [] [] [] false
              false) :=
  fetch_error_halts_loop
    (BackendAPI.mk (fun _ _ => .error "boom".data) (fun _ _ => .error []))
    (VaultCtx.mk [("kv1/".data, "kv".data)] true 10) 100
    (WatchState.mk [⟨"kv1/a:s".data, 0⟩] [("kv1/a:s".data, 5)] [] [] [] [] false false)
    rfl (by decide)

/-- C5: for a watched leased (database) path, every successful scheduled
fetch produces exactly one cache write and exactly one emitted event,
unconditionally — there is no comparison with the previous value. -/
theorem leased_always_write_emit (api : BackendAPI) (ctx : VaultCtx) (now : Int)
    (s : WatchState) (ev : Watchable) (rest : List Watchable) (data : Str)
    (leaseTime : Int) (vs2 ls2 : List (Str × Int))
    (hterm : s.terminated = false) (hne : s.heapL ≠ [])
    (hpop : heapPop s.heapL = (ev, rest))
    (hleas : isLeasable (eventType ctx.vaults ev.path) = true)
    (hget : get api ctx s.versions s.leases ev.path = .ok data leaseTime vs2 ls2) :
    (loopStep api ctx now s).secretstore = setAssoc s.secretstore ev.path data
    ∧ (loopStep api ctx now s).events = s.events ++ [⟨ev.path, data⟩] := by
  have hempty : s.heapL.isEmpty = false := by
    cases hl : s.heapL with
    | nil => exact absurd hl hne
    | cons a t => rfl
  have hver : isVersionable (eventType ctx.vaults ev.path) = false :=
    isLeasable_not_versionable _ hleas
  constructor <;>
    simp [loopStep, hterm, hempty, hpop, hver, hleas, hget]

/-- Witness for C5 at a concrete database path. -/
theorem leased_always_write_emit_witness :
    (loopStep (BackendAPI.mk (fun _ _ => .error [])
        (fun _ _ => .ok ("u".data, "p".data, 300)))
        (VaultCtx.mk [("db1/".data, "database".data)] true 10) 100
        (WatchState.mk [⟨"db1/role".data, 0⟩] [] [] [] [] [] false false)).secretstore
      = setAssoc [] "db1/role".data "u:p".data
    ∧ (loopStep (BackendAPI.mk (fun _ _ => .error [])
        (fun _ _ => .ok ("u".data, "p".data, 300)))
        (VaultCtx.mk [("db1/".data, "database".data)] true 10) 100
        (WatchState.mk [⟨"db1/role".data, 0⟩] [] [] [] [] [] false false)).events
      = [] ++ [⟨"db1/role".data, "u:p".data⟩] :=
  leased_always_write_emit
    (BackendAPI.mk (fun _ _ => .error []) (fun _ _ => .ok ("u".data, "p".data, 300)))
    (VaultCtx.mk [("db1/".data, "database".data)] true 10) 100
    (WatchState.mk [⟨"db1/role".data, 0⟩] [] [] [] [] [] false false)
    ⟨"db1/role".data, 0⟩ [] "u:p".data 300 [] [("db1/role".data, 300)]
    rfl (by decide) (by decide) (by decide) (by decide)

/-- C6: after a successful fetch of a leased path, the path is re-enqueued
with due time `now + leaseTime`, where `leaseTime` is the lease duration
returned by that very fetch and `now` is the fetch-completion time. -/
theorem leased_requeue_lease_duration (api : BackendAPI) (ctx : VaultCtx) (now : Int)
    (s : WatchState) (ev : Watchable) (rest : List Watchable) (data : Str)
    (leaseTime : Int) (vs2 ls2 : List (Str × Int))
    (hterm : s.terminated = false) (hne : s.heapL ≠ [])
    (hpop : heapPop s.heapL = (ev, rest))
    (hleas : isLeasable (eventType ctx.vaults ev.path) = true)
    (hget : get api ctx s.versions s.leases ev.path = .ok data leaseTime vs2 ls2) :
    (loopStep api ctx now s).heapL = heapPush rest ⟨ev.path, now + leaseTime⟩ := by
  have hempty : s.heapL.isEmpty = false := by
    cases hl : s.heapL with
    | nil => exact absurd hl hne
    | cons a t => rfl
  have hver : isVersionable (eventType ctx.vaults ev.path) = false :=
    isLeasable_not_versionable _ hleas
  simp [loopStep, hterm, hempty, hpop, hver, hleas, hget]

/-- Witness for C6 (lease 300 returned by the fetch, completion time 100). -/
theorem leased_requeue_lease_duration_witness :
    (loopStep (BackendAPI.mk (fun _ _ => .error [])
        (fun _ _ => .ok ("u".data, "p".data, 300)))
        (VaultCtx.mk [("db1/".data, "database".data)] true 10) 100
        (WatchState.mk [⟨"db1/role".data, 0⟩] [] [] [] [] [] false false)).heapL
      = heapPush [] ⟨"db1/role".data, 100 + 300⟩ :=
  leased_requeue_lease_duration
    (BackendAPI.mk (fun _ _ => .error []) (fun _ _ => .ok ("u".data, "p".data, 300)))
    (VaultCtx.mk [("db1/".data, "database".data)] true 10) 100
    (WatchState.mk [⟨"db1/role".data, 0⟩] [] [] [] [] [] false false)
    ⟨"db1/role".data, 0⟩ [] "u:p".data 300 [] [("db1/role".data, 300)]
    rfl (by decide) (by decide) (by decide) (by decide)

/-- C7: after a successful fetch of a versioned path (watched with a
nonzero poll period), the path is re-enqueued with due time
`now + ctx.versionPeriod` — the configured constant, independent of the
path and the fetch — regardless of how the version compared. -/
theorem versioned_requeue_poll_period (api : BackendAPI) (ctx : VaultCtx) (now : Int)
    (s : WatchState) (ev : Watchable) (rest : List Watchable) (data : Str)
    (version : Int) (vs2 ls2 : List (Str × Int))
    (hterm : s.terminated = false) (hne : s.heapL ≠ [])
    (hpop : heapPop s.heapL = (ev, rest))
    (hvp : ctx.versionPeriod ≠ 0)
    (hver : isVersionable (eventType ctx.vaults ev.path) = true)
    (hget : get api ctx s.versions s.leases ev.path = .ok data version vs2 ls2) :
    (loopStep api ctx now s).heapL = heapPush rest ⟨ev.path, now + ctx.versionPeriod⟩ := by
  have hempty : s.heapL.isEmpty = false := by
    cases hl : s.heapL with
    | nil => exact absurd hl hne
    | cons a t => rfl
  by_cases hgt : (lookupAssoc s.versions ev.path).getD 0 < version
  · simp [loopStep, hterm, hempty, hpop, hvp, hver, hget, hgt]
  · simp [loopStep, hterm, hempty, hpop, hvp, hver, hget, hgt]

/-- Witness for C7 (poll period 10, completion time 100; the fetched
version 5 equals the recorded one, and the path is still re-enqueued). -/
theorem versioned_requeue_poll_period_witness :
    (loopStep (BackendAPI.mk (fun _ _ => .ok ([("s".data, "x".data)], 5))
        (fun _ _ => .error []))
        (VaultCtx.mk [("kv1/".data, "kv".data)] true 10) 100
        (WatchState.mk [⟨"kv1/a:s".data, 0⟩] [("kv1/a:s".data, 5)] [] [] [] [] false
          false)).heapL
      = heapPush [] ⟨"kv1/a:s".data,
          100 + (VaultCtx.mk [("kv1/".data, "kv".data)] true 10).versionPeriod⟩ :=
  versioned_requeue_poll_period
    (BackendAPI.mk (fun _ _ => .ok ([("s".data, "x".data)], 5)) (fun _ _ => .error []))
    (VaultCtx.mk [("kv1/".data, "kv".data)] true 10) 100
    (WatchState.mk [⟨"kv1/a:s".data, 0⟩] [("kv1/a:s".data, 5)] [] [] [] [] false false)
    ⟨"kv1/a:s".data, 0⟩ [] "x".data 5 [("kv1/a:s".data, 5)] []
    rfl (by decide) (by decide) (by decide) (by decide) (by decide)

theorem mount_trim_eq (key mp : Str) (h : (mp ++ ['/']).isPrefixOf key = true) :
    mp ++ '/' :: trimPre key (mp ++ ['/']) = key := by
  rw [trimPre, if_pos h]
  have hpre : List.IsPrefix (mp ++ ['/']) key := List.isPrefixOf_iff_prefix.mp h
  obtain ⟨t, ht⟩ := hpre
  rw [← ht, List.drop_left]
  simp

theorem get_kv_sets_version (api : BackendAPI) (ctx : VaultCtx)
    (versions leases : List (Str × Int)) (key mp : Str) (data : Str) (version : Int)
    (vs2 ls2 : List (Str × Int))
    (hmp : getVaultTypePath ctx.vaults key = .ok ("kv".data, mp))
    (hwc : ctx.hasWatchConfig = true) (hvp : ctx.versionPeriod ≠ 0)
    (hget : get api ctx versions leases key = .ok data version vs2 ls2) :
    vs2 = setAssoc versions (mp ++ '/' :: trimPre key (mp ++ ['/'])) version
    ∧ ls2 = leases := by
  simp only [get, hmp] at hget
  cases h1 : (List.splitOn ':' (trimPre key (mp ++ ['/']))).get? 1 with
  | none =>
    rw [h1] at hget
    simp at hget
  | some sn =>
    rw [h1] at hget
    simp only [if_true] at hget
    cases h2 : getKV2 api mp
        (List.headD (List.splitOn ':' (trimPre key (mp ++ ['/']))) []) sn with
    | error e =>
      rw [h2] at hget
      simp at hget
    | ok r =>
      rw [h2] at hget
      simp [hwc, hvp] at hget
      obtain ⟨hd, hv, hvs, hls⟩ := hget
      rw [← hvs, ← hv, ← hls]
      exact ⟨rfl, rfl⟩

/-- C3 (counterexample): the recorded version is NOT left unchanged on a
fetch returning a lower version.  Concretely: the recorded version for
`kv1/a:s` is 5, the scheduled fetch succeeds with version 3 (equal-or-lower,
so per the claim the map must stay unchanged, and indeed no event fires),
yet afterwards the recorded version is 3 — `get` overwrites
`c.versions[path]` on every successful fetch (vault.go line 116). -/
theorem recorded_version_counterexample :
    get (BackendAPI.mk (fun _ _ => .ok ([("s".data, "x".data)], 3)) (fun _ _ => .error []))
        (VaultCtx.mk [("kv1/".data, "kv".data)] true 10)
        [("kv1/a:s".data, 5)] [] "kv1/a:s".data
      = .ok "x".data 3 [("kv1/a:s".data, 3)] []
    ∧ (3 : Int) ≤ 5
    ∧ lookupAssoc [(("kv1/a:s".data : Str), (5 : Int))] "kv1/a:s".data = some 5
    ∧ (loopStep (BackendAPI.mk (fun _ _ => .ok ([("s".data, "x".data)], 3))
          (fun _ _ => .error []))
        (VaultCtx.mk [("kv1/".data, "kv".data)] true 10) 100
        (WatchState.mk [⟨"kv1/a:s".data, 0⟩] [("kv1/a:s".data, 5)] [] [] [] [] false
          false)).versions
      = [("kv1/a:s".data, 3)]
    ∧ (loopStep (BackendAPI.mk (fun _ _ => .ok ([("s".data, "x".data)], 3))
          (fun _ _ => .error []))
        (VaultCtx.mk [("kv1/".data, "kv".data)] true 10) 100
        (WatchState.mk [⟨"kv1/a:s".data, 0⟩] [("kv1/a:s".data, 5)] [] [] [] [] false
          false)).events = [] := by
  refine ⟨by decide, by decide, by decide, by decide, by decide⟩

/-- C3 (amended): the scheduler's recorded version for a versioned path is
set to the fetched version on EVERY successful scheduled fetch — also when
the fetched version is equal or lower than the recorded one — because
`get` writes `c.versions[path]` unconditionally on success. -/
theorem recorded_version_set_on_every_fetch (api : BackendAPI) (ctx : VaultCtx)
    (now : Int) (s : WatchState) (ev : Watchable) (rest : List Watchable)
    (data : Str) (version : Int) (vs2 ls2 : List (Str × Int)) (mp : Str)
    (hterm : s.terminated = false) (hne : s.heapL ≠ [])
    (hpop : heapPop s.heapL = (ev, rest))
    (hvp : ctx.versionPeriod ≠ 0)
    (hver : isVersionable (eventType ctx.vaults ev.path) = true)
    (hmp : getVaultTypePath ctx.vaults ev.path = .ok ("kv".data, mp))
    (hpre : (mp ++ ['/']).isPrefixOf ev.path = true)
    (hwc : ctx.hasWatchConfig = true)
    (hget : get api ctx s.versions s.leases ev.path = .ok data version vs2 ls2) :
    (loopStep api ctx now s).versions = setAssoc s.versions ev.path version := by
  obtain ⟨hvs, _⟩ := get_kv_sets_version api ctx s.versions s.leases ev.path mp data
    version vs2 ls2 hmp hwc hvp hget
  have hkey := mount_trim_eq ev.path mp hpre
  have hempty : s.heapL.isEmpty = false := by
    cases hl : s.heapL with
    | nil => exact absurd hl hne
    | cons a t => rfl
  have hstep : (loopStep api ctx now s).versions = vs2 := by
    by_cases hgt : (lookupAssoc s.versions ev.path).getD 0 < version
    · simp [loopStep, hterm, hempty, hpop, hvp, hver, hget, hgt]
    · simp [loopStep, hterm, hempty, hpop, hvp, hver, hget, hgt]
  rw [hstep, hvs, hkey]

/-- Witness for the amended C3 at the counterexample input (recorded 5,
fetched 3; the recorded version becomes 3). -/
theorem recorded_version_set_on_every_fetch_witness :
    (loopStep (BackendAPI.mk (fun _ _ => .ok ([("s".data, "x".data)], 3))
        (fun _ _ => .error []))
      (VaultCtx.mk [("kv1/".data, "kv".data)] true 10) 100
      (WatchState.mk [⟨"kv1/a:s".data, 0⟩] [("kv1/a:s".data, 5)] [] [] [] [] false
        false)).versions
      = setAssoc [("kv1/a:s".data, 5)] "kv1/a:s".data 3 :=
  recorded_version_set_on_every_fetch
    (BackendAPI.mk (fun _ _ => .ok ([("s".data, "x".data)], 3)) (fun _ _ => .error []))
    (VaultCtx.mk [("kv1/".data, "kv".data)] true 10) 100
    (WatchState.mk [⟨"kv1/a:s".data, 0⟩] [("kv1/a:s".data, 5)] [] [] [] [] false false)
    ⟨"kv1/a:s".data, 0⟩ [] "x".data 3 [("kv1/a:s".data, 3)] [] "kv1".data
    rfl (by decide) (by decide) (by decide) (by decide) rfl (by decide) rfl
    (by decide)

/-- C8: if the initial watch set is empty — no leased paths, and no
versioned paths eligible under the configured poll period (period zero or
no versioned paths) — `watchVault` closes the alert channel immediately,
performs zero fetches and emits zero events, and the scheduler is
terminated without the loop body ever running. -/
theorem empty_watch_set_closes_channel (api : Nat → BackendAPI) (clock : Nat → Int)
    (ctx : VaultCtx) (versions leases : List (Str × Int)) (store : List (Str × Str))
    (now : Int) (fuel : Nat)
    (hl : leases = []) (hv : ctx.versionPeriod = 0 ∨ versions = []) :
    (watchVault api clock ctx versions leases store now fuel).channelClosed = true
    ∧ (watchVault api clock ctx versions leases store now fuel).final.fetchLog = []
    ∧ (watchVault api clock ctx versions leases store now fuel).final.events = []
    ∧ (watchVault api clock ctx versions leases store now fuel).final.terminated = true := by
  have h0 : initHeap leases versions ctx.versionPeriod now = [] := by
    subst hl
    rcases hv with hv | hv
    · simp [initHeap, hv]
    · subst hv
      simp [initHeap]
  refine ⟨?_, ?_, ?_, ?_⟩ <;> simp [watchVault, h0]

/-- Witness for C8 (no leases, poll period zero, one registered versioned
path baseline; the channel closes and nothing runs). -/
theorem empty_watch_set_closes_channel_witness :
    (watchVault (fun _ => BackendAPI.mk (fun _ _ => .error []) (fun _ _ => .error []))
        (fun _ => 0) (VaultCtx.mk [("kv1/".data, "kv".data)] true 0)
        [("kv1/a:s".data, 5)] [] [] 0 7).channelClosed = true
    ∧ (watchVault (fun _ => BackendAPI.mk (fun _ _ => .error []) (fun _ _ => .error []))
        (fun _ => 0) (VaultCtx.mk [("kv1/".data, "kv".data)] true 0)
        [("kv1/a:s".data, 5)] [] [] 0 7).final.fetchLog = []
    ∧ (watchVault (fun _ => BackendAPI.mk (fun _ _ => .error []) (fun _ _ => .error []))
        (fun _ => 0) (VaultCtx.mk [("kv1/".data, "kv".data)] true 0)
        [("kv1/a:s".data, 5)] [] [] 0 7).final.events = []
    ∧ (watchVault (fun _ => BackendAPI.mk (fun _ _ => .error []) (fun _ _ => .error []))
        (fun _ => 0) (VaultCtx.mk [("kv1/".data, "kv".data)] true 0)
        [("kv1/a:s".data, 5)] [] [] 0 7).final.terminated = true :=
  empty_watch_set_closes_channel
    (fun _ => BackendAPI.mk (fun _ _ => .error []) (fun _ _ => .error []))
    (fun _ => 0) (VaultCtx.mk [("kv1/".data, "kv".data)] true 0)
    [("kv1/a:s".data, 5)] [] [] 0 7 rfl (Or.inl rfl)

/-- C9: a key that resolves to a kv-typed mount but whose remaining path
contains no `:` makes `get` hit `keyWithName[1]` out of range — a runtime
panic rather than a returned error — and the panic propagates through the
public `Get` and through the registration loop of `AddVault`. -/
theorem kv_key_without_colon_panics (api : BackendAPI) (ctx : VaultCtx)
    (vs ls : List (Str × Int)) (key mp : Str)
    (hmp : getVaultTypePath ctx.vaults key = .ok ("kv".data, mp))
    (hnc : ':' ∉ trimPre key (mp ++ ['/'])) :
    get api ctx vs ls key = .panic
    ∧ Get api ctx vs ls key = (.panicked, vs, ls)
    ∧ ∀ (rest : List Str) (st : List (Str × Str)),
        addPaths api ctx (key :: rest) st vs ls = ⟨.panicked, st, vs, ls, false⟩ := by
  have hsplit : List.splitOn ':' (trimPre key (mp ++ ['/']))
      = [trimPre key (mp ++ ['/'])] := by
    simp only [List.splitOn]
    apply List.splitOnP_eq_single
    intro x hx
    simp only [beq_iff_eq]
    intro hxe
    exact hnc (hxe ▸ hx)
  have hget : get api ctx vs ls key = .panic := by
    simp [get, hmp, hsplit]
  refine ⟨hget, ?_, ?_⟩
  · simp [Get, hget]
  · intro rest st
    simp [addPaths, Get, hget]

/-- Witness for C9 at the colon-less key `kv1/abc`. -/
theorem kv_key_without_colon_panics_witness :
    get (BackendAPI.mk (fun _ _ => .error []) (fun _ _ => .error []))
        (VaultCtx.mk [("kv1/".data, "kv".data)] true 10) [] [] "kv1/abc".data = .panic
    ∧ Get (BackendAPI.mk (fun _ _ => .error []) (fun _ _ => .error []))
        (VaultCtx.mk [("kv1/".data, "kv".data)] true 10) [] [] "kv1/abc".data
      = (.panicked, [], [])
    ∧ ∀ (rest : List Str) (st : List (Str × Str)),
        addPaths (BackendAPI.mk (fun _ _ => .error []) (fun _ _ => .error []))
          (VaultCtx.mk [("kv1/".data, "kv".data)] true 10) ("kv1/abc".data :: rest) st [] []
          = ⟨.panicked, st, [], [], false⟩ :=
  kv_key_without_colon_panics
    (BackendAPI.mk (fun _ _ => .error []) (fun _ _ => .error []))
    (VaultCtx.mk [("kv1/".data, "kv".data)] true 10) [] [] "kv1/abc".data "kv1".data
    rfl (by decide)

/-- A successful prefix of the `for _, path := range paths` registration
loop of `AddVault` (vault.go lines 244-250): starting from secret store
`st` and client maps `vs`, `ls`, the initial fetch of every listed path
succeeds, each one writing `v.secretstore[path] = data` into the
accumulator, ending in store `st'` and maps `vs'`, `ls'`. -/
inductive PrefixRun (api : BackendAPI) (ctx : VaultCtx) :
    List Str → List (Str × Str) → List (Str × Int) → List (Str × Int) →
    List (Str × Str) → List (Str × Int) → List (Str × Int) → Prop where
  | nil {st : List (Str × Str)} {vs ls : List (Str × Int)} :
      PrefixRun api ctx [] st vs ls st vs ls
  | cons {p : Str} {pre : List Str} {st : List (Str × Str)}
      {vs ls : List (Str × Int)} {st' : List (Str × Str)}
      {vs' ls' : List (Str × Int)} (d : Str) (vs2 ls2 : List (Str × Int)) :
      Get api ctx vs ls p = (.ok d, vs2, ls2) →
      PrefixRun api ctx pre (setAssoc st p d) vs2 ls2 st' vs' ls' →
      PrefixRun api ctx (p :: pre) st vs ls st' vs' ls'

theorem addPaths_append_of_prefixRun {api : BackendAPI} {ctx : VaultCtx}
    {pre : List Str} {st : List (Str × Str)} {vs ls : List (Str × Int)}
    {st' : List (Str × Str)} {vs' ls' : List (Str × Int)}
    (hrun : PrefixRun api ctx pre st vs ls st' vs' ls') :
    ∀ tail, addPaths api ctx (pre ++ tail) st vs ls
      = addPaths api ctx tail st' vs' ls' := by
  induction hrun with
  | nil => intro tail; rfl
  | cons d vs2 ls2 hget hrun ih =>
    intro tail
    rename_i p2 pre2 st2 vs3 ls3 st2' vs2' ls2'
    have hstep : addPaths api ctx ((p2 :: pre2) ++ tail) st2 vs3 ls3
        = addPaths api ctx (pre2 ++ tail) (setAssoc st2 p2 d) vs2 ls2 := by
      simp [addPaths, hget]
    rw [hstep, ih tail]

/-- C10: `AddVault` is not atomic on error, for an arbitrary list of
requested paths with the failure at an arbitrary position: if the initial
fetches of all paths before the i-th succeed (each writing the secret
store) and the initial fetch of the i-th path fails, `AddVault` returns
the error without starting the watch goroutine, and the outcome's secret
store is the store left by the preceding writes — they remain in place,
with no rollback. -/
theorem addVault_partial_writes_on_error (api : BackendAPI)
    (mounts : List (Str × Str)) (hwc : Bool) (vp : Int) (store0 : List (Str × Str))
    (pre : List Str) (p : Str) (rest : List Str) (st' : List (Str × Str))
    (vs' ls' : List (Str × Int)) (e : Str)
    (hpre : PrefixRun api ⟨configureVault mounts, hwc, vp⟩ pre store0 [] [] st' vs' ls')
    (hfail : get api ⟨configureVault mounts, hwc, vp⟩ vs' ls' p = .error e) :
    AddVault api mounts hwc vp store0 (pre ++ p :: rest)
      = ⟨.err (addVaultErrMsg e p), st', vs', ls', false⟩ := by
  have h1 : AddVault api mounts hwc vp store0 (pre ++ p :: rest)
      = addPaths api ⟨configureVault mounts, hwc, vp⟩ (pre ++ p :: rest) store0 [] [] :=
    rfl
  rw [h1, addPaths_append_of_prefixRun hpre (p :: rest)]
  simp [addPaths, Get, hfail]

/-- Witness for C10 at four requested paths with the failure at the third:
the fetches of `kv1/a:s` and `kv1/b:s` succeed and are written to the
store, the fetch of `kv1/c:s` fails, `kv1/d:s` is never reached; the
outcome keeps both earlier writes on top of the pre-existing store. -/
theorem addVault_partial_writes_on_error_witness :
    AddVault (BackendAPI.mk
        (fun _ k => if k = "a".data then .ok ([("s".data, "x".data)], 3)
          else if k = "b".data then .ok ([("s".data, "y".data)], 4)
          else .error "boom".data)
        (fun _ _ => .error []))
      [("kv1/".data, "kv".data)] true 10 [("pre".data, "old".data)]
      (["kv1/a:s".data, "kv1/b:s".data] ++ "kv1/c:s".data :: ["kv1/d:s".data])
      = ⟨.err (addVaultErrMsg "boom".data "kv1/c:s".data),
          [("pre".data, "old".data), ("kv1/a:s".data, "x".data),
            ("kv1/b:s".data, "y".data)],
          [("kv1/a:s".data, 3), ("kv1/b:s".data, 4)], [], false⟩ :=
  addVault_partial_writes_on_error
    (BackendAPI.mk
      (fun _ k => if k = "a".data then .ok ([("s".data, "x".data)], 3)
        else if k = "b".data then .ok ([("s".data, "y".data)], 4)
        else .error "boom".data)
      (fun _ _ => .error []))
    [("kv1/".data, "kv".data)] true 10 [("pre".data, "old".data)]
    ["kv1/a:s".data, "kv1/b:s".data] "kv1/c:s".data ["kv1/d:s".data]
    [("pre".data, "old".data), ("kv1/a:s".data, "x".data), ("kv1/b:s".data, "y".data)]
    [("kv1/a:s".data, 3), ("kv1/b:s".data, 4)] [] "boom".data
    (PrefixRun.cons "x".data [("kv1/a:s".data, 3)] [] (by decide)
      (PrefixRun.cons "y".data [("kv1/a:s".data, 3), ("kv1/b:s".data, 4)] []
        (by decide) PrefixRun.nil))
    (by decide)

end Viper
